import Mathlib

/-!
Verification of the S3-to-Discord relay pipeline
(`awsCloudformation/lambda_function.py` and `discordBot/bot.py`).

The Python code is shallowly embedded: Python/JSON values become the mutual
inductive `PyVal`/`PyList`/`PyDict` (a Python `dict` has unique string keys,
modelled as an association list built without duplicates), `json.dumps` and
`json.loads` become an executable printer/parser pair over character lists,
raised exceptions become `Except`/`Option` results tagged with the exception
class name, and the AWS/Discord collaborators (S3, SQS, SSM, the Discord
channel) become records of oracle functions supplied to each operation.
-/

namespace DiscordInsta

/-! ## Python/JSON values

Python objects that flow through `json.dumps`/`json.loads` in this code:
`None`, `bool`, `int`, `str`, `list`, `dict` (string keys).  A mutual
inductive (instead of a nested `List`) keeps every recursion structural,
so all definitions compute by `rfl`/`decide`. -/

mutual
inductive PyVal where
  | null
  | bool (b : Bool)
  | int (n : Int)
  | str (s : String)
  | list (xs : PyList)
  | dict (kvs : PyDict)

inductive PyList where
  | nil
  | cons (hd : PyVal) (tl : PyList)

inductive PyDict where
  | nil
  | cons (k : String) (v : PyVal) (tl : PyDict)
end

/-- Conversion of an embedded Python list to a Lean list. -/
def PyList.toList : PyList → List PyVal
  | .nil => []
  | .cons x xs => x :: xs.toList

/-- Appending embedded Python lists (used only to state batch claims). -/
def PyList.append : PyList → PyList → PyList
  | .nil, ys => ys
  | .cons x xs, ys => .cons x (xs.append ys)

/-- Python `dict.get(k, default)`: the value at key `k`, or the default. -/
def PyDict.get (d : PyDict) (k : String) (dflt : PyVal) : PyVal :=
  match d with
  | .nil => dflt
  | .cons k0 v tl => if k0 = k then v else tl.get k dflt

/-- Python truthiness (`bool(x)`): `None`, `False`, `0`, `""`, `[]`, `` empty
dict `` are falsy, everything else truthy. -/
def pyTruthy : PyVal → Bool
  | .null => false
  | .bool b => b
  | .int n => n != 0
  | .str s => s != ""
  | .list .nil => false
  | .list _ => true
  | .dict .nil => false
  | .dict _ => true

/-! ## Decimal digit strings

`natChars n` is the decimal digit string of `n` (what Python's `str(int)`
and `json.dumps` print for a non-negative integer).  It is defined through
a structurally recursive fuel loop so that it computes in the kernel; the
fuel `n + 1` always suffices because the argument strictly shrinks. -/

def digCh (d : Nat) : Char := Char.ofNat (48 + d)

def natCharsAux : Nat → Nat → List Char → List Char
  | 0, _, acc => acc
  | fuel + 1, n, acc =>
      if n < 10 then digCh n :: acc
      else natCharsAux fuel (n / 10) (digCh (n % 10) :: acc)

def natChars (n : Nat) : List Char := natCharsAux (n + 1) n []

/-- Digit characters of an integer, with a leading minus sign when negative. -/
def intChars (i : Int) : List Char :=
  if i < 0 then '-' :: natChars i.natAbs else natChars i.natAbs

def natStr (n : Nat) : String := ⟨natChars n⟩
def intStr (i : Int) : String := ⟨intChars i⟩

def isDig (c : Char) : Bool := 48 ≤ c.toNat && c.toNat ≤ 57

/-- Lowercase hexadecimal digit for a nibble, as Python's `json` emits in
`\u00xx` escapes. -/
def hexLow (d : Nat) : Char :=
  if d < 10 then Char.ofNat (48 + d) else Char.ofNat (97 + (d - 10))

/-- Hexadecimal digit value (either case), `none` for a non-hex character. -/
def hexNib (c : Char) : Option Nat :=
  if 48 ≤ c.toNat && c.toNat ≤ 57 then some (c.toNat - 48)
  else if 97 ≤ c.toNat && c.toNat ≤ 102 then some (c.toNat - 87)
  else if 65 ≤ c.toNat && c.toNat ≤ 70 then some (c.toNat - 55)
  else none

/-- The brace characters, named so they never appear literally in a string. -/
def lbrace : Char := Char.ofNat 123
def rbrace : Char := Char.ofNat 125

/-! ## `json.dumps`

Python's `json.dumps` with its default separators `', '` and `': '`.
String escaping follows `json.encoder`: `"` and `\` get backslash escapes,
the named control escapes `\n \r \t \b \f` are used where they exist, all
other control characters become `\u00xx`.  (Non-ASCII characters are
emitted raw rather than `\uXXXX`-escaped, i.e. `ensure_ascii=False`; the
choice is invisible to every claim because `json.loads` accepts both.) -/

def escChar (c : Char) : List Char :=
  if c = '"' then ['\\', '"']
  else if c = '\\' then ['\\', '\\']
  else if c = '\n' then ['\\', 'n']
  else if c = '\r' then ['\\', 'r']
  else if c = '\t' then ['\\', 't']
  else if c = Char.ofNat 8 then ['\\', 'b']
  else if c = Char.ofNat 12 then ['\\', 'f']
  else if c.toNat < 32 then
    ['\\', 'u', '0', '0', hexLow (c.toNat / 16), hexLow (c.toNat % 16)]
  else [c]

/-- A JSON string literal: quote, escaped body, quote. -/
def strLit (s : String) : List Char := '"' :: (s.data.flatMap escChar ++ ['"'])

mutual
/-- Characters `json.dumps` prints for a value. -/
def jchars : PyVal → List Char
  | .null => 'n' :: 'u' :: 'l' :: 'l' :: []
  | .bool true => 't' :: 'r' :: 'u' :: 'e' :: []
  | .bool false => 'f' :: 'a' :: 'l' :: 's' :: 'e' :: []
  | .int n => intChars n
  | .str s => strLit s
  | .list xs => '[' :: (jitems xs ++ [']'])
  | .dict kvs => lbrace :: (jpairs kvs ++ [rbrace])

/-- Array elements joined by `', '`. -/
def jitems : PyList → List Char
  | .nil => []
  | .cons x .nil => jchars x
  | .cons x (.cons y tl) => jchars x ++ ',' :: ' ' :: jitems (.cons y tl)

/-- Object members `"k": v` joined by `', '`. -/
def jpairs : PyDict → List Char
  | .nil => []
  | .cons k v .nil => strLit k ++ ':' :: ' ' :: jchars v
  | .cons k v (.cons k2 v2 tl) =>
      strLit k ++ ':' :: ' ' :: jchars v ++ ',' :: ' ' :: jpairs (.cons k2 v2 tl)
end

def json_dumps (v : PyVal) : String := ⟨jchars v⟩

/-! ## `json.loads`

A fuel-indexed recursive-descent reader of the same grammar (whitespace
tolerated where RFC 8259 allows it; numbers restricted to integers, the
only numbers this program ever serializes).  `none` models
`json.JSONDecodeError`. -/

def isWsCh (c : Char) : Bool := c = ' ' || c = '\t' || c = '\n' || c = '\r'

def dropWs : List Char → List Char
  | [] => []
  | c :: cs => if isWsCh c then dropWs cs else c :: cs

/-- Leading run of decimal digits and the remainder. -/
def takeDigs : List Char → List Char × List Char
  | [] => ([], [])
  | c :: cs =>
      if isDig c then
        let (ds, r) := takeDigs cs
        (c :: ds, r)
      else ([], c :: cs)

/-- Numeric value of a digit run. -/
def digsVal (ds : List Char) : Nat :=
  ds.foldl (fun acc c => acc * 10 + (c.toNat - 48)) 0

/-- A remainder that cannot extend a digit run (every JSON delimiter and
the end of input qualify). -/
def headNotDigit : List Char → Bool
  | [] => true
  | c :: _ => !isDig c

/-- Reads a non-negative integer literal. -/
def readNat (cs : List Char) : Option (Nat × List Char) :=
  match takeDigs cs with
  | ([], _) => none
  | (ds, r) => some (digsVal ds, r)

/-- One escape character after a backslash (`\uXXXX` handled separately). -/
def unesc (e : Char) : Option Char :=
  if e = 'n' then some '\n'
  else if e = 't' then some '\t'
  else if e = 'r' then some '\r'
  else if e = 'b' then some (Char.ofNat 8)
  else if e = 'f' then some (Char.ofNat 12)
  else if e = '"' ∨ e = '\\' ∨ e = '/' then some e
  else none

/-- String body after the opening quote.  Raw control characters are
rejected as Python's strict decoder does. -/
def readStrAux (acc : List Char) : List Char → Option (String × List Char)
  | '\\' :: 'u' :: a :: b :: c :: d :: r =>
      match hexNib a, hexNib b, hexNib c, hexNib d with
      | some va, some vb, some vc, some vd =>
          readStrAux (Char.ofNat (((va * 16 + vb) * 16 + vc) * 16 + vd) :: acc) r
      | _, _, _, _ => none
  | '\\' :: e :: r =>
      match unesc e with
      | some ch => readStrAux (ch :: acc) r
      | none => none
  | '"' :: r => some (⟨acc.reverse⟩, r)
  | c :: r => if c.toNat < 32 then none else readStrAux (c :: acc) r
  | [] => none

def readStr (cs : List Char) : Option (String × List Char) := readStrAux [] cs

mutual
/-- Reads one JSON value (fuel strictly decreases at every recursive call;
`json_loads` supplies enough for any input). -/
def readVal : Nat → List Char → Option (PyVal × List Char)
  | 0, _ => none
  | fuel + 1, cs =>
      match dropWs cs with
      | 'n' :: 'u' :: 'l' :: 'l' :: r => some (.null, r)
      | 't' :: 'r' :: 'u' :: 'e' :: r => some (.bool true, r)
      | 'f' :: 'a' :: 'l' :: 's' :: 'e' :: r => some (.bool false, r)
      | '"' :: r =>
          match readStr r with
          | some (s, r2) => some (.str s, r2)
          | none => none
      | '[' :: r =>
          match dropWs r with
          | ']' :: r2 => some (.list .nil, r2)
          | r2 =>
              match readItems fuel r2 with
              | some (xs, r3) => some (.list xs, r3)
              | none => none
      | '-' :: r =>
          match readNat r with
          | some (n, r2) => some (.int (-(n : Int)), r2)
          | none => none
      | c :: r =>
          if c = lbrace then
            match dropWs r with
            | c2 :: r2 =>
                if c2 = rbrace then some (.dict .nil, r2)
                else
                  match readPairs fuel (c2 :: r2) with
                  | some (kvs, r3) => some (.dict kvs, r3)
                  | none => none
            | [] => none
          else if isDig c then
            match readNat (c :: r) with
            | some (n, r2) => some (.int (n : Int), r2)
            | none => none
          else none
      | [] => none

/-- Reads one-or-more comma-separated array elements up to `]`. -/
def readItems : Nat → List Char → Option (PyList × List Char)
  | 0, _ => none
  | fuel + 1, cs =>
      match readVal fuel cs with
      | none => none
      | some (v, r) =>
          match dropWs r with
          | ',' :: r2 =>
              match readItems fuel (dropWs r2) with
              | some (xs, r3) => some (.cons v xs, r3)
              | none => none
          | ']' :: r2 => some (.cons v .nil, r2)
          | _ => none

/-- Reads one-or-more `"key": value` members up to the closing brace. -/
def readPairs : Nat → List Char → Option (PyDict × List Char)
  | 0, _ => none
  | fuel + 1, cs =>
      match dropWs cs with
      | '"' :: r =>
          match readStr r with
          | none => none
          | some (k, r1) =>
              match dropWs r1 with
              | ':' :: r2 =>
                  match readVal fuel r2 with
                  | none => none
                  | some (v, r3) =>
                      match dropWs r3 with
                      | ',' :: r4 =>
                          match readPairs fuel (dropWs r4) with
                          | some (kvs, r5) => some (.cons k v kvs, r5)
                          | none => none
                      | c :: r4 =>
                          if c = rbrace then some (.cons k v .nil, r4) else none
                      | [] => none
              | _ => none
      | _ => none
end

/-- The `[` branch of `readVal`, named (definitionally equal to the inline
match, for use in proofs). -/
def readListBody (fuel : Nat) (r : List Char) : Option (PyVal × List Char) :=
  match dropWs r with
  | ']' :: r2 => some (.list .nil, r2)
  | r2 =>
      match readItems fuel r2 with
      | some (xs, r3) => some (.list xs, r3)
      | none => none

/-- The opening-brace branch of `readVal`, named likewise. -/
def readDictBody (fuel : Nat) (r : List Char) : Option (PyVal × List Char) :=
  match dropWs r with
  | c2 :: r2 =>
      if c2 = rbrace then some (.dict .nil, r2)
      else
        match readPairs fuel (c2 :: r2) with
        | some (kvs, r3) => some (.dict kvs, r3)
        | none => none
  | [] => none

/-- Python `json.loads`: parse the whole document, nothing but whitespace
may remain. -/
def json_loads (s : String) : Option PyVal :=
  match readVal (s.data.length + 1) s.data with
  | some (v, r) => if dropWs r = [] then some v else none
  | none => none

/-! ## `str()` / `repr()`

`str(x)` for the values above; containers render through `repr` as Python
does.  (Escaping inside `repr` of nested strings is elided — no claim ever
prints a container.)  `sq` is the apostrophe character. -/

def sq : Char := Char.ofNat 39

mutual
def pyRepr : PyVal → String
  | .null => "None"
  | .bool true => "True"
  | .bool false => "False"
  | .int n => intStr n
  | .str s => String.singleton sq ++ s ++ String.singleton sq
  | .list xs => "[" ++ pyReprItems xs ++ "]"
  | .dict kvs => String.singleton lbrace ++ pyReprPairs kvs ++ String.singleton rbrace

def pyReprItems : PyList → String
  | .nil => ""
  | .cons x .nil => pyRepr x
  | .cons x (.cons y tl) => pyRepr x ++ ", " ++ pyReprItems (.cons y tl)

def pyReprPairs : PyDict → String
  | .nil => ""
  | .cons k v .nil => String.singleton sq ++ k ++ String.singleton sq ++ ": " ++ pyRepr v
  | .cons k v (.cons k2 v2 tl) =>
      String.singleton sq ++ k ++ String.singleton sq ++ ": " ++ pyRepr v ++ ", "
        ++ pyReprPairs (.cons k2 v2 tl)
end

/-- Python `str(x)`: identity on strings, `repr`-style otherwise. -/
def pyStr : PyVal → String
  | .str s => s
  | v => pyRepr v

/-! ## `urllib.parse.unquote_plus`

`unquote_plus` first turns `+` into a space, then percent-decodes: each
maximal run of valid `%XX` byte escapes is decoded as UTF-8 with
`errors='replace'`; an invalid escape leaves its `%` literal. -/

def plusToSpace (cs : List Char) : List Char :=
  cs.map fun c => if c = '+' then ' ' else c

/-- Splits percent-encoded input into decoded bytes and literal characters. -/
def pctTokens : List Char → List (Sum Nat Char)
  | '%' :: h1 :: h2 :: rest =>
      match hexNib h1, hexNib h2 with
      | some v1, some v2 => Sum.inl (v1 * 16 + v2) :: pctTokens rest
      | _, _ => Sum.inr '%' :: pctTokens (h1 :: h2 :: rest)
  | c :: cs => Sum.inr c :: pctTokens cs
  | [] => []

def isCont (b : Nat) : Bool := 128 ≤ b && b < 192

/-- The U+FFFD replacement character (`errors='replace'`). -/
def replCh : Char := Char.ofNat 0xFFFD

def utf8Valid3 (b b2 b3 : Nat) : Bool :=
  isCont b2 && isCont b3 && !(b = 224 && b2 < 160) && !(b = 237 && 160 ≤ b2)

def utf8Valid4 (b b2 b3 b4 : Nat) : Bool :=
  isCont b2 && isCont b3 && isCont b4 && !(b = 240 && b2 < 144) && !(b = 244 && 144 ≤ b2)

/-- UTF-8 decoding with replacement characters for invalid sequences.  The
fuel keeps the recursion structural; one unit per decoded character always
suffices because every step consumes at least one byte. -/
def utf8DecodeReplAux : Nat → List Nat → List Char
  | 0, _ => []
  | _, [] => []
  | fuel + 1, b :: bs =>
      if b < 128 then Char.ofNat b :: utf8DecodeReplAux fuel bs
      else if 194 ≤ b && b < 224 then
        match bs with
        | b2 :: bs2 =>
            if isCont b2 then
              Char.ofNat ((b - 192) * 64 + (b2 - 128)) :: utf8DecodeReplAux fuel bs2
            else replCh :: utf8DecodeReplAux fuel bs
        | [] => [replCh]
      else if 224 ≤ b && b < 240 then
        match bs with
        | b2 :: b3 :: bs3 =>
            if utf8Valid3 b b2 b3 then
              Char.ofNat ((b - 224) * 4096 + (b2 - 128) * 64 + (b3 - 128))
                :: utf8DecodeReplAux fuel bs3
            else replCh :: utf8DecodeReplAux fuel bs
        | _ => replCh :: utf8DecodeReplAux fuel bs
      else if 240 ≤ b && b < 245 then
        match bs with
        | b2 :: b3 :: b4 :: bs4 =>
            if utf8Valid4 b b2 b3 b4 then
              Char.ofNat ((b - 240) * 262144 + (b2 - 128) * 4096 + (b3 - 128) * 64 + (b4 - 128))
                :: utf8DecodeReplAux fuel bs4
            else replCh :: utf8DecodeReplAux fuel bs
        | _ => replCh :: utf8DecodeReplAux fuel bs
      else replCh :: utf8DecodeReplAux fuel bs

def utf8DecodeRepl (bs : List Nat) : List Char := utf8DecodeReplAux bs.length bs

/-- Folds the token stream back into text, decoding each maximal byte run. -/
def regroupTokens (pending : List Nat) : List (Sum Nat Char) → List Char
  | [] => utf8DecodeRepl pending.reverse
  | Sum.inl b :: rest => regroupTokens (b :: pending) rest
  | Sum.inr c :: rest => utf8DecodeRepl pending.reverse ++ c :: regroupTokens [] rest

/-- Python `urllib.parse.unquote_plus(s, encoding='utf-8')`. -/
def unquote_plus (s : String) : String :=
  ⟨regroupTokens [] (pctTokens (plusToSpace s.data))⟩

/-! ## `urllib.parse.quote` (default `safe='/'`) -/

def utf8Enc (c : Char) : List Nat :=
  let n := c.toNat
  if n < 128 then [n]
  else if n < 2048 then [192 + n / 64, 128 + n % 64]
  else if n < 65536 then [224 + n / 4096, 128 + n / 64 % 64, 128 + n % 64]
  else [240 + n / 262144, 128 + n / 4096 % 64, 128 + n / 64 % 64, 128 + n % 64]

def hexUp (d : Nat) : Char :=
  if d < 10 then Char.ofNat (48 + d) else Char.ofNat (55 + d)

def isAsciiAlphaNum (c : Char) : Bool :=
  (65 ≤ c.toNat && c.toNat ≤ 90) || (97 ≤ c.toNat && c.toNat ≤ 122) || isDig c

def quoteChar (c : Char) : List Char :=
  if isAsciiAlphaNum c || c = '_' || c = '.' || c = '-' || c = '~' || c = '/' then [c]
  else (utf8Enc c).flatMap fun b => ['%', hexUp (b / 16), hexUp (b % 16)]

def urlQuote (s : String) : String := ⟨s.data.flatMap quoteChar⟩

/-! ## `os.path.splitext` and the extension filter -/

/-- Index of the last occurrence of `c` (Python `str.rfind`, `none` for -1). -/
def lastIdxAux (c : Char) : List Char → Nat → Option Nat
  | [], _ => none
  | x :: xs, i =>
      match lastIdxAux c xs (i + 1) with
      | some j => some j
      | none => if x = c then some i else none

/-- The extension `os.path.splitext(p)[1]`: the suffix from the last dot,
empty when the dot is in the directory part or the basename is all leading
dots. -/
def splitextExt (p : List Char) : List Char :=
  match lastIdxAux '.' p 0 with
  | none => []
  | some dotIdx =>
      let sepIdx : Int := match lastIdxAux '/' p 0 with | some i => (i : Int) | none => -1
      if sepIdx < (dotIdx : Int) then
        let nameStart : Nat := match lastIdxAux '/' p 0 with | some i => i + 1 | none => 0
        if ((p.drop nameStart).take (dotIdx - nameStart)).all (· = '.') then []
        else p.drop dotIdx
      else []

def pyLower (s : String) : String := ⟨s.data.map Char.toLower⟩

/-- `ImageProcessor._is_valid_image_file`: lowercased extension must be one
of the five allowed image extensions. -/
def is_valid_image_file (object_key : String) : Bool :=
  let ext : String := ⟨splitextExt (pyLower object_key).data⟩
  ext = ".jpg" || ext = ".jpeg" || ext = ".png" || ext = ".gif" || ext = ".webp"

/-- Python `str.strip(c)` specialized to the double quote (used on ETags). -/
def stripQuote (s : String) : String :=
  ⟨((s.data.dropWhile (· = '"')).reverse.dropWhile (· = '"')).reverse⟩

/-! ## The ingest side (`lambda_function.py`)

External collaborators are oracle functions: `headObject` models
`s3.head_object` (`none` = the call raised, so metadata defaults to empty),
`presign` models `generate_presigned_url` (`none` = raised, so the public
fallback URL is used), `sendMessage` models `sqs.send_message` (`none` =
raised, which errors the record).  `nowIso` is `datetime.utcnow().isoformat()`.
`queueUrl` is the `SQS_QUEUE_URL` environment variable (`ImageProcessor()`
raises `ValueError` when it is absent). -/

structure HeadObject where
  contentLength : Int
  lastModified : Option String
  contentType : String
  etag : String
  metadata : PyVal

structure Collab where
  queueUrl : Option String
  environment : String
  nowIso : String
  headObject : PyVal → String → Option HeadObject
  presign : PyVal → String → Option String
  sendMessage : String → Option String

structure ProcessedImage where
  bucket : PyVal
  key : String
  url : String

inductive RecOutcome where
  | skipped
  | errored (msg : String)
  | published (img : ProcessedImage)

/-- `record.get('s3', {})`; a non-dict record raises `AttributeError`. -/
def recordS3Info (r : PyVal) : Except String PyVal :=
  match r with
  | .dict kvs => .ok (kvs.get "s3" (.dict .nil))
  | _ => .error "AttributeError"

/-- `record.get('s3', {}).get('bucket', {}).get('name')`. -/
def recordBucketName (r : PyVal) : Except String PyVal :=
  match recordS3Info r with
  | .error e => .error e
  | .ok s3i =>
      match s3i with
      | .dict kvs =>
          match kvs.get "bucket" (.dict .nil) with
          | .dict bkvs => .ok (bkvs.get "name" .null)
          | _ => .error "AttributeError"
      | _ => .error "AttributeError"

/-- `unquote_plus(record.get('s3', {}).get('object', {}).get('key', ''))`;
a non-string key raises inside `unquote_plus`. -/
def recordObjectKey (r : PyVal) : Except String String :=
  match recordS3Info r with
  | .error e => .error e
  | .ok s3i =>
      match s3i with
      | .dict kvs =>
          match kvs.get "object" (.dict .nil) with
          | .dict okvs =>
              match okvs.get "key" (.str "") with
              | .str s => .ok (unquote_plus s)
              | _ => .error "TypeError"
          | _ => .error "AttributeError"
      | _ => .error "AttributeError"

/-- `ImageProcessor._get_object_metadata`: the metadata dict, `{}` when the
`head_object` call raised. -/
def get_object_metadata (c : Collab) (bucket : PyVal) (key : String) : PyVal :=
  match c.headObject bucket key with
  | some r =>
      .dict (.cons "size" (.int r.contentLength)
        (.cons "last_modified" (.str (match r.lastModified with | some s => s | none => ""))
        (.cons "content_type" (.str r.contentType)
        (.cons "etag" (.str (stripQuote r.etag))
        (.cons "metadata" r.metadata .nil)))))
  | none => .dict .nil

/-- `ImageProcessor._generate_image_url`: the pre-signed URL, or the public
URL fallback when signing raised. -/
def generate_image_url (c : Collab) (bucket : PyVal) (key : String) : String :=
  match c.presign bucket key with
  | some u => u
  | none => "https://" ++ pyStr bucket ++ ".s3.amazonaws.com/" ++ urlQuote key

/-- `ImageProcessor._create_sqs_message`. -/
def create_sqs_message (image_url object_key timestamp environment : String)
    (metadata : PyVal) : PyVal :=
  .dict (.cons "image_url" (.str image_url)
    (.cons "object_key" (.str object_key)
    (.cons "timestamp" (.str timestamp)
    (.cons "environment" (.str environment)
    (.cons "metadata" metadata .nil)))))

/-- The error string appended for a record whose processing raised `e`. -/
def recordErr (r : PyVal) (e : String) : String :=
  "Error processing record " ++ pyStr r ++ ": " ++ e

/-- The body of the per-record `try` in `process_s3_event`, with the list of
SQS publish calls it issued (the serialized message bodies). -/
def processRecord (c : Collab) (r : PyVal) : RecOutcome × List String :=
  match recordBucketName r with
  | .error e => (.errored (recordErr r e), [])
  | .ok bname =>
      match recordObjectKey r with
      | .error e => (.errored (recordErr r e), [])
      | .ok okey =>
          if pyTruthy bname = false ∨ okey = "" then (.skipped, [])
          else if is_valid_image_file okey = false then (.skipped, [])
          else
            let meta := get_object_metadata c bname okey
            let url := generate_image_url c bname okey
            let body := json_dumps (create_sqs_message url okey c.nowIso c.environment meta)
            match c.sendMessage body with
            | some _ => (.published ⟨bname, okey, url⟩, [body])
            | none => (.errored (recordErr r "ClientError"), [body])

/-- The record loop: processed images, error strings, and publish calls, in
order.  A record that raises is recorded and the loop continues. -/
def processRecords (c : Collab) : List PyVal → List ProcessedImage × List String × List String
  | [] => ([], [], [])
  | r :: rs =>
      let (out, sent) := processRecord c r
      let (ps, es, ss) := processRecords c rs
      match out with
      | .published p => (p :: ps, es, sent ++ ss)
      | .errored m => (ps, m :: es, sent ++ ss)
      | .skipped => (ps, es, sent ++ ss)

def dictKeys : PyDict → List PyVal
  | .nil => []
  | .cons k _ tl => .str k :: dictKeys tl

/-- `event.get('Records', [])` followed by `len(records)` and iteration:
a non-dict event raises `AttributeError` at `.get`; a `Records` value with
no `len` raises `TypeError`; iterating a string yields its characters and
iterating a dict yields its keys. -/
def getRecords (event : PyVal) : Except String (List PyVal) :=
  match event with
  | .dict kvs =>
      match kvs.get "Records" (.list .nil) with
      | .list xs => .ok xs.toList
      | .str s => .ok (s.data.map fun ch => PyVal.str (String.singleton ch))
      | .dict k2 => .ok (dictKeys k2)
      | _ => .error "TypeError"
  | _ => .error "AttributeError"

/-- The response dictionary of `process_s3_event`.  The Python code adds the
`errors` key only when the list is nonempty; the empty list models absence. -/
structure IngestResponse where
  statusCode : Int
  processed_count : Nat
  error_count : Nat
  processed_images : List ProcessedImage
  errors : List String

/-- `ImageProcessor.process_s3_event`, paired with the publish-call trace.
A failure to read the batch itself lands in the outer `except`, producing
one top-level error (and hence status 207, the `if not errors` test). -/
def process_s3_event (c : Collab) (event : PyVal) : IngestResponse × List String :=
  match getRecords event with
  | .error e =>
      ({ statusCode := 207, processed_count := 0, error_count := 1,
         processed_images := [], errors := ["Error processing S3 event: " ++ e] }, [])
  | .ok rs =>
      let (ps, es, ss) := processRecords c rs
      ({ statusCode := if es.isEmpty then 200 else 207,
         processed_count := ps.length, error_count := es.length,
         processed_images := ps, errors := es }, ss)

/-- `lambda_handler`'s two response shapes: the ingest response, or the
`{'statusCode': 500, 'error': msg}` dictionary when `ImageProcessor()`
itself raised. -/
inductive HandlerResponse where
  | ingest (r : IngestResponse)
  | failed (statusCode : Int) (error : String)

def HandlerResponse.statusCode : HandlerResponse → Int
  | .ingest r => r.statusCode
  | .failed sc _ => sc

/-- `lambda_handler`: construct the processor (fatal when `SQS_QUEUE_URL`
is missing), then delegate to `process_s3_event`. -/
def lambda_handler (c : Collab) (event : PyVal) : HandlerResponse × List String :=
  match c.queueUrl with
  | none =>
      (.failed 500 "Lambda execution failed: SQS_QUEUE_URL environment variable is required", [])
  | some _ =>
      let (resp, ss) := process_s3_event c event
      (.ingest resp, ss)

/-! ## `datetime.fromisoformat` (CPython 3.x strict grammar)

`fromisoformat_ok s` says whether `datetime.fromisoformat(s)` succeeds:
a `YYYY-MM-DD` calendar date, optionally followed by one separator
character and a time `HH[:MM[:SS[.fff[fff]]]]`, optionally followed by an
offset `±HH:MM[:SS[.ffffff]]`.  Component ranges are the `datetime`/
`timezone` constructor checks.  (`int()`'s tolerance of signs and blanks
inside a slice is not modelled.) -/

def twoDigits (a b : Char) : Option Nat :=
  if isDig a && isDig b then some ((a.toNat - 48) * 10 + (b.toNat - 48)) else none

def isLeapYear (y : Nat) : Bool := y % 4 = 0 && (y % 100 ≠ 0 || y % 400 = 0)

def daysInMonth (y m : Nat) : Nat :=
  if m = 2 then (if isLeapYear y then 29 else 28)
  else if m = 4 || m = 6 || m = 9 || m = 11 then 30
  else 31

/-- The 10-character `YYYY-MM-DD` prefix, validated as a calendar date. -/
def parseDate10 (cs : List Char) : Bool :=
  match cs with
  | [y1, y2, y3, y4, '-', m1, m2, '-', d1, d2] =>
      match twoDigits y1 y2, twoDigits y3 y4, twoDigits m1 m2, twoDigits d1 d2 with
      | some hi, some lo, some m, some d =>
          let y := hi * 100 + lo
          1 ≤ y && 1 ≤ m && m ≤ 12 && 1 ≤ d && d ≤ daysInMonth y m
      | _, _, _, _ => false
  | _ => false

/-- `_parse_hh_mm_ss_ff`: structure of `HH[:MM[:SS[.fff[fff]]]]`, returning
`(hh, mm, ss, microseconds)` without range checks (the constructors apply
those). -/
def parseHMSF (cs : List Char) : Option (Nat × Nat × Nat × Nat) :=
  match cs with
  | [a, b] =>
      match twoDigits a b with
      | some hh => some (hh, 0, 0, 0)
      | none => none
  | [a, b, ':', c, d] =>
      match twoDigits a b, twoDigits c d with
      | some hh, some mm => some (hh, mm, 0, 0)
      | _, _ => none
  | [a, b, ':', c, d, ':', e, f] =>
      match twoDigits a b, twoDigits c d, twoDigits e f with
      | some hh, some mm, some ss => some (hh, mm, ss, 0)
      | _, _, _ => none
  | [a, b, ':', c, d, ':', e, f, '.', g1, g2, g3] =>
      match twoDigits a b, twoDigits c d, twoDigits e f with
      | some hh, some mm, some ss =>
          if isDig g1 && isDig g2 && isDig g3 then
            some (hh, mm, ss,
              (((g1.toNat - 48) * 10 + (g2.toNat - 48)) * 10 + (g3.toNat - 48)) * 1000)
          else none
      | _, _, _ => none
  | [a, b, ':', c, d, ':', e, f, '.', g1, g2, g3, g4, g5, g6] =>
      match twoDigits a b, twoDigits c d, twoDigits e f with
      | some hh, some mm, some ss =>
          if isDig g1 && isDig g2 && isDig g3 && isDig g4 && isDig g5 && isDig g6 then
            some (hh, mm, ss,
              ((((((g1.toNat - 48) * 10 + (g2.toNat - 48)) * 10 + (g3.toNat - 48)) * 10
                + (g4.toNat - 48)) * 10 + (g5.toNat - 48)) * 10 + (g6.toNat - 48)))
          else none
      | _, _, _ => none
  | _ => none

def firstIdxAux (c : Char) : List Char → Nat → Option Nat
  | [], _ => none
  | x :: xs, i => if x = c then some i else firstIdxAux c xs (i + 1)

/-- Where the timezone part starts: index of the first `-`, else of the
first `+` (CPython's `tstr.find('-') + 1 or tstr.find('+') + 1`). -/
def tzSignIdx (cs : List Char) : Option Nat :=
  match firstIdxAux '-' cs 0 with
  | some i => some i
  | none => firstIdxAux '+' cs 0

/-- The main time components pass the `datetime` constructor checks. -/
def mainTimeOk (cs : List Char) : Bool :=
  match parseHMSF cs with
  | some (hh, mm, ss, _) => hh < 24 && mm < 60 && ss < 60
  | none => false

/-- The offset passes the `timezone` constructor check (|offset| < 24h). -/
def tzOk (cs : List Char) : Bool :=
  (cs.length = 5 || cs.length = 8 || cs.length = 15) &&
  match parseHMSF cs with
  | some (hh, mm, ss, _) => hh * 3600 + mm * 60 + ss < 86400
  | none => false

def timePartOk (ts : List Char) : Bool :=
  if ts.length < 2 then false
  else
    match tzSignIdx ts with
    | none => mainTimeOk ts
    | some i => mainTimeOk (ts.take i) && tzOk (ts.drop (i + 1))

def fromisoformat_ok (s : String) : Bool :=
  let cs := s.data
  parseDate10 (cs.take 10) &&
  match cs.drop 10 with
  | [] => true
  | _sep :: ts => timePartOk ts

/-- Python `str.replace` specialized to the code's one-character pattern
(`timestamp.replace('Z', '+00:00')`). -/
def replaceChar (pat : Char) (sub : List Char) : List Char → List Char
  | [] => []
  | c :: cs => if c = pat then sub ++ replaceChar pat sub cs else c :: replaceChar pat sub cs

def replaceZ (s : String) : String := ⟨replaceChar 'Z' ['+', '0', '0', ':', '0', '0'] s.data⟩

/-! ## `_format_file_size`

The Python code formats `size_bytes / 1024**k` with `f"...:.1f"`.  Those
divisors are powers of two, so the float quotient is exact and the `.1f`
formatting is exact round-half-to-even of the rational `size_bytes/1024**k`
at one decimal, which is what `fmtOneDec` computes. -/

def roundHalfEven (a b : Int) : Int :=
  let q := a / b
  let r := a % b
  if 2 * r > b ∨ (2 * r = b ∧ q % 2 = 1) then q + 1 else q

def fmtOneDec (n d : Int) : String :=
  let t := roundHalfEven (n * 10) d
  intStr (t / 10) ++ "." ++ natStr (t % 10).toNat

/-- `DiscordInstagramBot._format_file_size`. -/
def format_file_size (size_bytes : Int) : String :=
  if size_bytes < 1024 then intStr size_bytes ++ " B"
  else if size_bytes < 1024 ^ 2 then fmtOneDec size_bytes 1024 ++ " KB"
  else if size_bytes < 1024 ^ 3 then fmtOneDec size_bytes (1024 ^ 2) ++ " MB"
  else fmtOneDec size_bytes (1024 ^ 3) ++ " GB"

/-! ## The consumer side (`bot.py`)

`channelExists` models `discord_client.get_channel(channel_id)` being
non-`None`; `sendOk` models whether `channel.send(embed=...)` succeeds
(`false` = the Discord call raised); `nowIso` is the `datetime.utcnow()`
fallback timestamp. -/

structure Embed where
  title : String
  description : String
  color : Nat
  timestamp : String
  image_url : PyVal
  fields : List (String × PyVal)
  footer_text : String
  footer_icon_url : String

structure BotCollab where
  channelExists : Bool
  sendOk : Embed → Bool
  nowIso : String
  environment : String

/-- The embed timestamp expression:
`datetime.fromisoformat(timestamp.replace('Z', '+00:00')) if timestamp
else datetime.utcnow()` — the fallback fires only for a falsy timestamp;
a truthy unparsable one raises `ValueError`. -/
def embedTimestamp (c : BotCollab) (timestamp : PyVal) : Except String String :=
  if pyTruthy timestamp then
    match timestamp with
    | .str ts =>
        let t := replaceZ ts
        if fromisoformat_ok t then .ok t else .error "ValueError"
    | _ => .error "AttributeError"
  else .ok c.nowIso

/-- The `File Size` field: present iff `metadata.get('size')` is truthy; a
truthy non-integer raises in the `<` comparisons of `_format_file_size`.
(Python's `bool`-is-an-`int` subclass corner is not modelled.) -/
def embedSizeField (md : PyDict) : Except String (List (String × PyVal)) :=
  let sz := md.get "size" .null
  if pyTruthy sz then
    match sz with
    | .int n => .ok [("File Size", .str (format_file_size n))]
    | _ => .error "TypeError"
  else .ok []

/-- Last path segment of the object key
(`object_key.split('/')[-1] if '/' in object_key else object_key`). -/
def lastSeg : List Char → List Char → List Char
  | [], cur => cur
  | c :: r, cur => if c = '/' then lastSeg r [] else lastSeg r (cur ++ [c])

def filenameOf (key : String) : String :=
  if key.data.contains '/' then ⟨lastSeg key.data []⟩ else key

/-- `DiscordInstagramBot._create_discord_embed`.  Arguments arrive as the
parsed JSON values; a non-dict `metadata` or non-string `object_key`
raises where Python would (the exception class for a non-string key is
approximated). -/
def create_discord_embed (c : BotCollab) (image_url object_key timestamp metadata : PyVal) :
    Except String Embed :=
  match embedTimestamp c timestamp with
  | .error e => .error e
  | .ok ts =>
      match metadata with
      | .dict md =>
          match embedSizeField md with
          | .error e => .error e
          | .ok sizeField =>
              let ct := md.get "content_type" .null
              let ctField : List (String × PyVal) := if pyTruthy ct then [("Type", ct)] else []
              match object_key with
              | .str ks =>
                  .ok { title := "📸 New Instagram Post",
                        description := "Image uploaded from Instagram",
                        color := 0xE4405F,
                        timestamp := ts,
                        image_url := image_url,
                        fields := sizeField ++ ctField ++ [("Filename", .str (filenameOf ks))],
                        footer_text := "Environment: " ++ c.environment,
                        footer_icon_url :=
                          "https://cdn.jsdelivr.net/gh/walkxcode/dashboard-icons/png/instagram.png" }
              | _ => .error "TypeError"
      | _ => .error "AttributeError"

/-- Outcome of `_process_single_message`: returned normally after posting,
returned normally after the missing-URL warning, or raised. -/
inductive MsgOutcome where
  | posted (e : Embed)
  | skippedNoUrl
  | raised (e : String)

/-- Observable actions of the consumer loop, in order. -/
inductive BotEvent where
  | warned
  | sent (e : Embed)
  | deleted (receiptHandle : String)

structure SqsMessage where
  Body : String
  ReceiptHandle : String

/-- `DiscordInstagramBot._process_single_message`, with its event trace. -/
def process_single_message (c : BotCollab) (m : SqsMessage) : MsgOutcome × List BotEvent :=
  match json_loads m.Body with
  | none => (.raised "JSONDecodeError", [])
  | some body =>
      match body with
      | .dict kvs =>
          let image_url := kvs.get "image_url" .null
          let object_key := kvs.get "object_key" (.str "unknown")
          let timestamp := kvs.get "timestamp" (.str "")
          let metadata := kvs.get "metadata" (.dict .nil)
          if pyTruthy image_url = false then (.skippedNoUrl, [.warned])
          else if c.channelExists = false then (.raised "ValueError", [])
          else
            match create_discord_embed c image_url object_key timestamp metadata with
            | .error e => (.raised e, [])
            | .ok emb =>
                if c.sendOk emb then (.posted emb, [.sent emb])
                else (.raised "HTTPException", [])
      | _ => (.raised "AttributeError", [])

def msgFailed : MsgOutcome → Bool
  | .raised _ => true
  | _ => false

/-- The per-message loop of `process_sqs_messages`: process, then delete
from the queue unless processing raised (the `except` logs and moves on,
leaving the message for redelivery). -/
def process_batch (c : BotCollab) : List SqsMessage → List BotEvent
  | [] => []
  | m :: ms =>
      let (out, evs) := process_single_message c m
      evs ++ (if msgFailed out then [] else [.deleted m.ReceiptHandle]) ++ process_batch c ms

def deletedHandles (evs : List BotEvent) : List String :=
  evs.filterMap fun e => match e with | .deleted rh => some rh | _ => none

def sentCount (evs : List BotEvent) : Nat :=
  (evs.filter fun e => match e with | .sent _ => true | _ => false).length

/-! ## The poll-loop guard

`process_sqs_messages` is driven by a 10-second scheduler; its first lines
are `if not self.running or self.processing_active: return` followed by
`self.processing_active = True` (no `await` in between, so the check-and-set
is atomic under the single event loop), and the `finally` block resets the
flag when the cycle ends. -/

structure PollState where
  running : Bool
  processing_active : Bool

inductive PollEvent where
  | tick
  | cycleEnd

inductive PollAction where
  | fetch

/-- One scheduler event: a tick either starts a cycle (issuing exactly one
`receive_message` fetch) or is dropped by the guard; `cycleEnd` is the
`finally` reset. -/
def poll_step (s : PollState) : PollEvent → PollState × List PollAction
  | .tick =>
      if s.running = false ∨ s.processing_active = true then (s, [])
      else ({ s with processing_active := true }, [.fetch])
  | .cycleEnd => ({ s with processing_active := false }, [])

def poll_run (s : PollState) : List PollEvent → List PollAction
  | [] => []
  | e :: es =>
      let (s2, acts) := poll_step s e
      acts ++ poll_run s2 es

/-! ## Lemma layer: decimal digit strings -/

theorem natCharsAux_acc (f : Nat) : ∀ (n : Nat) (acc : List Char),
    natCharsAux f n acc = natCharsAux f n [] ++ acc := by
  induction f with
  | zero => intro n acc; rfl
  | succ f ih =>
      intro n acc
      by_cases h : n < 10
      · simp [natCharsAux, h]
      · simp only [natCharsAux, if_neg h]
        rw [ih (n / 10) (digCh (n % 10) :: acc), ih (n / 10) [digCh (n % 10)]]
        simp

theorem natCharsAux_fuel (f : Nat) : ∀ (g n : Nat) (acc : List Char), n < f → n < g →
    natCharsAux f n acc = natCharsAux g n acc := by
  induction f with
  | zero => intro g n acc h; omega
  | succ f ih =>
      intro g n acc hf hg
      match g, hg with
      | g + 1, _ =>
        by_cases h : n < 10
        · simp [natCharsAux, h]
        · simp only [natCharsAux, if_neg h]
          exact ih g (n / 10) _ (by omega) (by omega)

theorem natChars_eq (n : Nat) :
    natChars n = if n < 10 then [digCh n] else natChars (n / 10) ++ [digCh (n % 10)] := by
  by_cases h : n < 10
  · simp [natChars, natCharsAux, h]
  · have hstep : natCharsAux (n + 1) n [] = natCharsAux n (n / 10) [digCh (n % 10)] := by
      simp only [natCharsAux, if_neg h]
    rw [if_neg h, natChars, hstep,
      natCharsAux_fuel n (n / 10 + 1) (n / 10) _ (by omega) (by omega), natCharsAux_acc]
    rfl

theorem natChars_ne_nil (n : Nat) : natChars n ≠ [] := by
  rw [natChars_eq]
  by_cases h : n < 10 <;> simp [h]

theorem digCh_toNat {n : Nat} (h : n < 10) : (digCh n).toNat = 48 + n := by
  interval_cases n <;> decide

theorem digCh_isDig {n : Nat} (h : n < 10) : isDig (digCh n) = true := by
  interval_cases n <;> decide

theorem natChars_all_digits (n : Nat) : ∀ c ∈ natChars n, isDig c = true := by
  induction n using Nat.strongRecOn with
  | _ n ih =>
      rw [natChars_eq]
      by_cases h : n < 10
      · simp only [if_pos h, List.mem_singleton]
        rintro c rfl
        exact digCh_isDig h
      · simp only [if_neg h, List.mem_append, List.mem_singleton]
        rintro c (hc | rfl)
        · exact ih (n / 10) (by omega) c hc
        · exact digCh_isDig (by omega)

theorem natChars_head (n : Nat) : ∃ c t, natChars n = c :: t ∧ isDig c = true := by
  match h : natChars n with
  | [] => exact absurd h (natChars_ne_nil n)
  | c :: t =>
      exact ⟨c, t, rfl, natChars_all_digits n c (h ▸ List.mem_cons_self ..)⟩

theorem digsVal_natChars (n : Nat) : digsVal (natChars n) = n := by
  induction n using Nat.strongRecOn with
  | _ n ih =>
      rw [natChars_eq]
      by_cases h : n < 10
      · simp only [if_pos h, digsVal, List.foldl_cons, List.foldl_nil]
        rw [digCh_toNat h]; omega
      · simp only [if_neg h, digsVal, List.foldl_append, List.foldl_cons, List.foldl_nil]
        have hv := ih (n / 10) (by omega)
        rw [digsVal] at hv
        rw [hv, digCh_toNat (by omega : n % 10 < 10)]
        omega

theorem takeDigs_not_digit {c : Char} {t : List Char} (h : isDig c = false) :
    takeDigs (c :: t) = ([], c :: t) := by
  simp [takeDigs, h]

theorem takeDigs_stop {cs : List Char} (h : headNotDigit cs = true) :
    takeDigs cs = ([], cs) := by
  cases cs with
  | nil => rfl
  | cons c t =>
      refine takeDigs_not_digit ?_
      simpa only [headNotDigit, Bool.not_eq_true'] using h

theorem takeDigs_run {ds : List Char} (hds : ∀ c ∈ ds, isDig c = true)
    {rest : List Char} (hrest : headNotDigit rest = true) :
    takeDigs (ds ++ rest) = (ds, rest) := by
  induction ds with
  | nil => simpa using takeDigs_stop hrest
  | cons c t ih =>
      have hc : isDig c = true := hds c (by simp)
      have ht := ih fun x hx => hds x (by simp [hx])
      simp [takeDigs, hc, ht]

theorem readNat_natChars (n : Nat) {rest : List Char} (hrest : headNotDigit rest = true) :
    readNat (natChars n ++ rest) = some (n, rest) := by
  rw [readNat, takeDigs_run (natChars_all_digits n) hrest]
  obtain ⟨c, t, hct, -⟩ := natChars_head n
  have hv : digsVal (c :: t) = n := by rw [← hct]; exact digsVal_natChars n
  rw [hct]
  simp [hv]

/-! ## Lemma layer: string-literal escaping -/

theorem hexNib_hexLow {k : Nat} (h : k < 16) : hexNib (hexLow k) = some k := by
  interval_cases k <;> decide

/-- Reading one escaped character undoes `escChar`. -/
theorem readStrAux_esc (c : Char) (acc rest : List Char) :
    readStrAux acc (escChar c ++ rest) = readStrAux (c :: acc) rest := by
  rw [escChar]
  split_ifs with h1 h2 h3 h4 h5 h6 h7 h8
  · subst h1; rfl
  · subst h2; rfl
  · subst h3; rfl
  · subst h4; rfl
  · subst h5; rfl
  · subst h6; rfl
  · subst h7; rfl
  · -- the `\u00xx` escape for the remaining control characters
    have hhi : c.toNat / 16 < 16 := by omega
    have hlo : c.toNat % 16 < 16 := by omega
    simp only [List.cons_append, List.nil_append, readStrAux,
      show hexNib '0' = some 0 from rfl, hexNib_hexLow hhi, hexNib_hexLow hlo]
    have harith : ((0 * 16 + 0) * 16 + c.toNat / 16) * 16 + c.toNat % 16 = c.toNat := by omega
    rw [harith, Char.ofNat_toNat]
    simp
  · -- a plain character: none of the escape classes apply
    simp only [List.cons_append, List.nil_append]
    rw [readStrAux.eq_def]
    have h32 : ¬c.toNat < 32 := h8
    split
    · rename_i heq; cases heq; exact absurd rfl h2
    · rename_i e r heq
      cases heq
      exact absurd rfl h2
    · rename_i heq; cases heq; exact absurd rfl h1
    · rename_i c2 r heq
      cases heq
      simp [h32]
    · rename_i heq; cases heq

/-- Reading an escaped run stops exactly at the closing quote. -/
theorem readStrAux_flat (cs : List Char) : ∀ (acc rest : List Char),
    readStrAux acc (cs.flatMap escChar ++ '"' :: rest) = some (⟨acc.reverse ++ cs⟩, rest) := by
  induction cs with
  | nil => intro acc rest; simp [readStrAux]
  | cons c t ih =>
      intro acc rest
      rw [List.flatMap_cons, List.append_assoc, readStrAux_esc, ih]
      simp

/-- The string-literal round trip after the opening quote. -/
theorem readStr_strLit (s : String) (rest : List Char) :
    readStr (s.data.flatMap escChar ++ '"' :: rest) = some (s, rest) := by
  rw [readStr, readStrAux_flat]
  simp

/-! ## Lemma layer: leading characters of rendered output -/

theorem isDig_not_special {c : Char} (h : isDig c = true) :
    c ≠ '"' ∧ c ≠ '[' ∧ c ≠ '-' ∧ c ≠ lbrace ∧ c ≠ 'n' ∧ c ≠ 't' ∧ c ≠ 'f' ∧
      isWsCh c = false ∧ c ≠ ']' ∧ c ≠ rbrace ∧ c ≠ ',' := by
  have hws : isWsCh c = false := by
    by_contra hws
    rw [Bool.not_eq_false, isWsCh] at hws
    simp only [Bool.or_eq_true, decide_eq_true_eq] at hws
    rcases hws with ((rfl | rfl) | rfl) | rfl <;> exact absurd h (by decide)
  refine ⟨?_, ?_, ?_, ?_, ?_, ?_, ?_, hws, ?_, ?_, ?_⟩
  all_goals (rintro rfl; exact absurd h (by decide))

theorem dropWs_cons {c : Char} (cs : List Char) (h : isWsCh c = false) :
    dropWs (c :: cs) = c :: cs := by
  simp [dropWs, h]

theorem dropWs_ws_cons {c : Char} (cs : List Char) (h : isWsCh c = true) :
    dropWs (c :: cs) = dropWs cs := by
  simp [dropWs, h]

/-- Every rendered value starts with a non-whitespace character that is not
a closing delimiter or separator. -/
theorem jchars_head (v : PyVal) :
    ∃ c t, jchars v = c :: t ∧ isWsCh c = false ∧ c ≠ ']' ∧ c ≠ rbrace ∧ c ≠ ',' := by
  cases v with
  | null => exact ⟨'n', _, rfl, by decide⟩
  | bool b =>
      cases b with
      | true => exact ⟨'t', _, rfl, by decide⟩
      | false => exact ⟨'f', _, rfl, by decide⟩
  | int n =>
      by_cases hm : n < 0
      · refine ⟨'-', natChars n.natAbs, ?_, by decide⟩
        simp [jchars, intChars, hm]
      · obtain ⟨c, t, hct, hc⟩ := natChars_head n.natAbs
        obtain ⟨-, -, -, -, -, -, -, hws, h1, h2, h3⟩ := isDig_not_special hc
        refine ⟨c, t, ?_, hws, h1, h2, h3⟩
        simp [jchars, intChars, hm, hct]
  | str s => exact ⟨'"', _, rfl, by decide⟩
  | list xs =>
      cases xs <;> exact ⟨'[', _, rfl, by decide⟩
  | dict kvs =>
      cases kvs <;> exact ⟨lbrace, _, rfl, by decide⟩

theorem dropWs_jchars (v : PyVal) (rest : List Char) :
    dropWs (jchars v ++ rest) = jchars v ++ rest := by
  obtain ⟨c, t, hct, hws, -⟩ := jchars_head v
  rw [hct, List.cons_append, dropWs_cons _ hws]

theorem jitems_cons_eq (x : PyVal) (xs : PyList) :
    ∃ mid, jitems (.cons x xs) = jchars x ++ mid := by
  cases xs with
  | nil => exact ⟨[], by simp [jitems]⟩
  | cons y tl => exact ⟨',' :: ' ' :: jitems (.cons y tl), rfl⟩

theorem dropWs_jitems (x : PyVal) (xs : PyList) (rest : List Char) :
    dropWs (jitems (.cons x xs) ++ rest) = jitems (.cons x xs) ++ rest := by
  obtain ⟨mid, hmid⟩ := jitems_cons_eq x xs
  rw [hmid, List.append_assoc]
  exact dropWs_jchars x (mid ++ rest)

theorem jpairs_cons_eq (k : String) (v : PyVal) (kvs : PyDict) :
    ∃ mid, jpairs (.cons k v kvs) = '"' :: (k.data.flatMap escChar ++ '"' :: mid) := by
  cases kvs with
  | nil =>
      refine ⟨':' :: ' ' :: jchars v, ?_⟩
      simp [jpairs, strLit]
  | cons k2 v2 tl =>
      refine ⟨':' :: ' ' :: (jchars v ++ ',' :: ' ' :: jpairs (.cons k2 v2 tl)), ?_⟩
      simp [jpairs, strLit]

/-! ## Lemma layer: one-step unfoldings of the reader -/

theorem readVal_succ_null (f : Nat) (r : List Char) :
    readVal (f + 1) ('n' :: 'u' :: 'l' :: 'l' :: r) = some (.null, r) := rfl

theorem readVal_succ_true (f : Nat) (r : List Char) :
    readVal (f + 1) ('t' :: 'r' :: 'u' :: 'e' :: r) = some (.bool true, r) := rfl

theorem readVal_succ_false (f : Nat) (r : List Char) :
    readVal (f + 1) ('f' :: 'a' :: 'l' :: 's' :: 'e' :: r) = some (.bool false, r) := rfl

theorem readVal_succ_str (f : Nat) (r : List Char) :
    readVal (f + 1) ('"' :: r)
      = match readStr r with
        | some (s, r2) => some (.str s, r2)
        | none => none := rfl

theorem readVal_succ_arr (f : Nat) (r : List Char) :
    readVal (f + 1) ('[' :: r) = readListBody f r := rfl

theorem readVal_succ_neg (f : Nat) (r : List Char) :
    readVal (f + 1) ('-' :: r)
      = match readNat r with
        | some (n, r2) => some (.int (-(n : Int)), r2)
        | none => none := rfl

/-- The reader's catch-all branch, for a head character that is none of the
literal-headed cases. -/
theorem readVal_succ_other (f : Nat) (c : Char) (r : List Char)
    (hws : isWsCh c = false) (hn : c ≠ 'n') (ht : c ≠ 't') (hf : c ≠ 'f')
    (hq : c ≠ '"') (hbk : c ≠ '[') (hm : c ≠ '-') :
    readVal (f + 1) (c :: r)
      = if c = lbrace then readDictBody f r
        else if isDig c then
          (match readNat (c :: r) with
           | some (n, r2) => some (.int (n : Int), r2)
           | none => none)
        else none := by
  show (match dropWs (c :: r) with
        | 'n' :: 'u' :: 'l' :: 'l' :: r => some (PyVal.null, r)
        | 't' :: 'r' :: 'u' :: 'e' :: r => some (PyVal.bool true, r)
        | 'f' :: 'a' :: 'l' :: 's' :: 'e' :: r => some (PyVal.bool false, r)
        | '"' :: r =>
            match readStr r with
            | some (s, r2) => some (PyVal.str s, r2)
            | none => none
        | '[' :: r => readListBody f r
        | '-' :: r =>
            match readNat r with
            | some (n, r2) => some (PyVal.int (-(n : Int)), r2)
            | none => none
        | c :: r =>
            if c = lbrace then readDictBody f r
            else if isDig c then
              match readNat (c :: r) with
              | some (n, r2) => some (PyVal.int (n : Int), r2)
              | none => none
            else none
        | [] => none) = _
  rw [dropWs_cons r hws]
  split
  · rename_i heq
    rw [List.cons.injEq] at heq
    exact absurd heq.1 hn
  · rename_i heq
    rw [List.cons.injEq] at heq
    exact absurd heq.1 ht
  · rename_i heq
    rw [List.cons.injEq] at heq
    exact absurd heq.1 hf
  · rename_i heq
    rw [List.cons.injEq] at heq
    exact absurd heq.1 hq
  · rename_i heq
    rw [List.cons.injEq] at heq
    exact absurd heq.1 hbk
  · rename_i heq
    rw [List.cons.injEq] at heq
    exact absurd heq.1 hm
  · rename_i heq
    rw [List.cons.injEq] at heq
    obtain ⟨rfl, rfl⟩ := heq
    rfl
  · rename_i heq
    exact absurd heq (by simp)

/-- Unconditional whitespace-skip facts for the concrete heads that occur
in rendered output. -/
theorem dropWs_quote (cs : List Char) : dropWs ('"' :: cs) = '"' :: cs :=
  dropWs_cons cs (by decide)

theorem dropWs_colon (cs : List Char) : dropWs (':' :: cs) = ':' :: cs :=
  dropWs_cons cs (by decide)

theorem dropWs_comma (cs : List Char) : dropWs (',' :: cs) = ',' :: cs :=
  dropWs_cons cs (by decide)

theorem dropWs_rbracket (cs : List Char) : dropWs (']' :: cs) = ']' :: cs :=
  dropWs_cons cs (by decide)

theorem dropWs_rbrace_head (cs : List Char) : dropWs (rbrace :: cs) = rbrace :: cs :=
  dropWs_cons cs (by decide)

theorem dropWs_space (cs : List Char) : dropWs (' ' :: cs) = dropWs cs :=
  dropWs_ws_cons cs (by decide)

theorem readListBody_close (f : Nat) (rest : List Char) :
    readListBody f (']' :: rest) = some (.list .nil, rest) := rfl

theorem readListBody_cons (f : Nat) {c : Char} (X : List Char)
    (hws : isWsCh c = false) (hc : c ≠ ']') :
    readListBody f (c :: X)
      = match readItems f (c :: X) with
        | some (xs, r3) => some (PyVal.list xs, r3)
        | none => none := by
  simp only [readListBody]
  rw [dropWs_cons X hws]
  split
  · rename_i heq
    rw [List.cons.injEq] at heq
    exact absurd heq.1 hc
  · rfl

theorem readDictBody_close (f : Nat) (rest : List Char) :
    readDictBody f (rbrace :: rest) = some (.dict .nil, rest) := rfl

theorem readDictBody_quote (f : Nat) (X : List Char) :
    readDictBody f ('"' :: X)
      = match readPairs f ('"' :: X) with
        | some (kvs, r3) => some (PyVal.dict kvs, r3)
        | none => none := rfl

theorem dropWs_jpairs (k : String) (v : PyVal) (kvs : PyDict) (rest : List Char) :
    dropWs (jpairs (.cons k v kvs) ++ rest) = jpairs (.cons k v kvs) ++ rest := by
  obtain ⟨mid, hmid⟩ := jpairs_cons_eq k v kvs
  rw [hmid, List.cons_append, dropWs_quote]

theorem jchars_len_pos (v : PyVal) : 0 < (jchars v).length := by
  obtain ⟨c, t, hct, -⟩ := jchars_head v
  simp [hct]

theorem readVal_space (fuel : Nat) (cs : List Char) :
    readVal fuel (' ' :: cs) = readVal fuel cs := by
  cases fuel with
  | zero => rfl
  | succ f =>
      simp only [readVal]
      rw [dropWs_space]

/-! ## The `json.dumps`/`json.loads` round trip -/

mutual
theorem rt_val : ∀ (v : PyVal) (fuel : Nat) (rest : List Char),
    (jchars v).length < fuel → headNotDigit rest = true →
    readVal fuel (jchars v ++ rest) = some (v, rest)
  | .null, fuel, rest, hf, _ => by
      cases fuel with
      | zero => omega
      | succ f => exact readVal_succ_null f rest
  | .bool true, fuel, rest, hf, _ => by
      cases fuel with
      | zero => omega
      | succ f => exact readVal_succ_true f rest
  | .bool false, fuel, rest, hf, _ => by
      cases fuel with
      | zero => omega
      | succ f => exact readVal_succ_false f rest
  | .int n, fuel, rest, hf, hr => by
      cases fuel with
      | zero => omega
      | succ f =>
          by_cases hm : n < 0
          · have harg : jchars (.int n) ++ rest = '-' :: (natChars n.natAbs ++ rest) := by
              simp [jchars, intChars, hm]
            rw [harg, readVal_succ_neg, readNat_natChars n.natAbs hr]
            show some (PyVal.int (-(n.natAbs : Int)), rest) = some (PyVal.int n, rest)
            have hn : -(n.natAbs : Int) = n := by omega
            rw [hn]
          · obtain ⟨c, t, hct, hc⟩ := natChars_head n.natAbs
            obtain ⟨hcq, hcbk, hcm, hclb, hcn, hct2, hcf, hws, -, -, -⟩ := isDig_not_special hc
            have harg : jchars (.int n) ++ rest = c :: (t ++ rest) := by
              simp [jchars, intChars, hm, hct]
            rw [harg, readVal_succ_other f c (t ++ rest) hws hcn hct2 hcf hcq hcbk hcm,
              if_neg hclb, if_pos hc, ← List.cons_append, ← hct, readNat_natChars n.natAbs hr]
            show some (PyVal.int (n.natAbs : Int), rest) = some (PyVal.int n, rest)
            have hn : (n.natAbs : Int) = n := by omega
            rw [hn]
  | .str s, fuel, rest, hf, _ => by
      cases fuel with
      | zero => omega
      | succ f =>
          have harg : jchars (.str s) ++ rest
              = '"' :: (s.data.flatMap escChar ++ '"' :: rest) := by
            simp [jchars, strLit]
          rw [harg, readVal_succ_str, readStr_strLit]
  | .list .nil, fuel, rest, hf, _ => by
      cases fuel with
      | zero => omega
      | succ f =>
          have harg : jchars (.list .nil) ++ rest = '[' :: (']' :: rest) := by
            simp [jchars, jitems]
          rw [harg, readVal_succ_arr, readListBody_close]
  | .list (.cons x xs), fuel, rest, hf, _ => by
      cases fuel with
      | zero => omega
      | succ f =>
          have hjl : (jchars (.list (.cons x xs))).length
              = (jitems (.cons x xs)).length + 2 := by
            simp [jchars]
          have hlen : (jitems (.cons x xs)).length + 1 < f := by omega
          have harg : jchars (.list (.cons x xs)) ++ rest
              = '[' :: (jitems (.cons x xs) ++ ']' :: rest) := by
            simp [jchars]
          obtain ⟨c, t, hct, hws, hne, -, -⟩ := jchars_head x
          obtain ⟨mid, hmid⟩ := jitems_cons_eq x xs
          have hshape : jitems (.cons x xs) ++ ']' :: rest
              = c :: (t ++ (mid ++ ']' :: rest)) := by
            rw [hmid, hct]; simp
          have hbody := readListBody_cons f (t ++ (mid ++ ']' :: rest)) hws hne
          rw [harg, readVal_succ_arr, hshape, hbody, ← hshape,
            rt_items x xs f rest hlen]
  | .dict .nil, fuel, rest, hf, _ => by
      cases fuel with
      | zero => omega
      | succ f =>
          have harg : jchars (.dict .nil) ++ rest = lbrace :: (rbrace :: rest) := by
            simp [jchars, jpairs]
          have hstep := readVal_succ_other f lbrace (rbrace :: rest) (by decide) (by decide)
            (by decide) (by decide) (by decide) (by decide) (by decide)
          rw [harg, hstep, if_pos rfl, readDictBody_close]
  | .dict (.cons k v kvs), fuel, rest, hf, _ => by
      cases fuel with
      | zero => omega
      | succ f =>
          have hjl : (jchars (.dict (.cons k v kvs))).length
              = (jpairs (.cons k v kvs)).length + 2 := by
            simp [jchars]
          have hlen : (jpairs (.cons k v kvs)).length + 1 < f := by omega
          have harg : jchars (.dict (.cons k v kvs)) ++ rest
              = lbrace :: (jpairs (.cons k v kvs) ++ rbrace :: rest) := by
            simp [jchars]
          have hstep := readVal_succ_other f lbrace (jpairs (.cons k v kvs) ++ rbrace :: rest)
            (by decide) (by decide) (by decide) (by decide) (by decide) (by decide) (by decide)
          obtain ⟨mid, hmid⟩ := jpairs_cons_eq k v kvs
          have hshape : jpairs (.cons k v kvs) ++ rbrace :: rest
              = '"' :: ((k.data.flatMap escChar ++ '"' :: mid) ++ rbrace :: rest) := by
            rw [hmid]; simp
          rw [harg, hstep, if_pos rfl, hshape, readDictBody_quote, ← hshape,
            rt_pairs k v kvs f rest hlen]
termination_by v _ _ _ _ => sizeOf v

theorem rt_items : ∀ (x : PyVal) (xs : PyList) (fuel : Nat) (rest : List Char),
    (jitems (.cons x xs)).length + 1 < fuel →
    readItems fuel (jitems (.cons x xs) ++ ']' :: rest) = some (.cons x xs, rest)
  | x, .nil, fuel, rest, hlen => by
      cases fuel with
      | zero => omega
      | succ f =>
          have hfx : (jchars x).length < f := by
            have hji : (jitems (.cons x .nil)).length = (jchars x).length := by
              simp [jitems]
            omega
          simp only [readItems]
          rw [show jitems (.cons x .nil) ++ ']' :: rest = jchars x ++ ']' :: rest from rfl,
            rt_val x f (']' :: rest) hfx rfl]
          rfl
  | x, .cons y tl, fuel, rest, hlen => by
      cases fuel with
      | zero => omega
      | succ f =>
          have hx1 : 0 < (jchars x).length := jchars_len_pos x
          have hlens : (jitems (.cons x (.cons y tl))).length
              = (jchars x).length + 2 + (jitems (.cons y tl)).length := by
            simp [jitems]; omega
          have hfx : (jchars x).length < f := by omega
          have hfy : (jitems (.cons y tl)).length + 1 < f := by omega
          have harg : jitems (.cons x (.cons y tl)) ++ ']' :: rest
              = jchars x ++ (',' :: ' ' :: (jitems (.cons y tl) ++ ']' :: rest)) := by
            simp [jitems]
          have hv := rt_val x f (',' :: ' ' :: (jitems (.cons y tl) ++ ']' :: rest)) hfx rfl
          have hd2 : dropWs (' ' :: (jitems (.cons y tl) ++ ']' :: rest))
              = jitems (.cons y tl) ++ ']' :: rest := by
            rw [dropWs_space]; exact dropWs_jitems y tl _
          have hrec := rt_items y tl f rest hfy
          simp only [readItems, harg, hv, dropWs_comma, hd2, hrec]
termination_by x xs _ _ _ => sizeOf x + sizeOf xs + 1

theorem rt_pairs : ∀ (k : String) (v : PyVal) (kvs : PyDict) (fuel : Nat) (rest : List Char),
    (jpairs (.cons k v kvs)).length + 1 < fuel →
    readPairs fuel (jpairs (.cons k v kvs) ++ rbrace :: rest) = some (.cons k v kvs, rest)
  | k, v, .nil, fuel, rest, hlen => by
      cases fuel with
      | zero => omega
      | succ f =>
          have hs2 : 2 ≤ (strLit k).length := by simp [strLit]
          have hlens : (jpairs (.cons k v .nil)).length
              = (strLit k).length + 2 + (jchars v).length := by
            simp [jpairs]; omega
          have hv1 : (jchars v).length < f := by omega
          have harg : jpairs (.cons k v .nil) ++ rbrace :: rest
              = '"' :: (k.data.flatMap escChar
                  ++ '"' :: (':' :: ' ' :: (jchars v ++ rbrace :: rest))) := by
            simp [jpairs, strLit]
          have hv := rt_val v f (rbrace :: rest) hv1 rfl
          simp only [readPairs, harg, dropWs_quote, readStr_strLit, dropWs_colon,
            readVal_space, hv, dropWs_rbrace_head]
          rfl
  | k, v, .cons k2 v2 tl, fuel, rest, hlen => by
      cases fuel with
      | zero => omega
      | succ f =>
          have hs2 : 2 ≤ (strLit k).length := by simp [strLit]
          have hv0 : 0 < (jchars v).length := jchars_len_pos v
          have hlens : (jpairs (.cons k v (.cons k2 v2 tl))).length
              = (strLit k).length + 2 + (jchars v).length + 2
                  + (jpairs (.cons k2 v2 tl)).length := by
            simp [jpairs]; omega
          have hv1 : (jchars v).length < f := by omega
          have hrecLen : (jpairs (.cons k2 v2 tl)).length + 1 < f := by omega
          have harg : jpairs (.cons k v (.cons k2 v2 tl)) ++ rbrace :: rest
              = '"' :: (k.data.flatMap escChar
                  ++ '"' :: (':' :: ' ' :: (jchars v
                      ++ ',' :: ' ' :: (jpairs (.cons k2 v2 tl) ++ rbrace :: rest)))) := by
            simp [jpairs, strLit]
          have hv := rt_val v f
            (',' :: ' ' :: (jpairs (.cons k2 v2 tl) ++ rbrace :: rest)) hv1 rfl
          have hd2 : dropWs (' ' :: (jpairs (.cons k2 v2 tl) ++ rbrace :: rest))
              = jpairs (.cons k2 v2 tl) ++ rbrace :: rest := by
            rw [dropWs_space]; exact dropWs_jpairs k2 v2 tl _
          have hrec := rt_pairs k2 v2 tl f rest hrecLen
          simp only [readPairs, harg, dropWs_quote, readStr_strLit, dropWs_colon,
            readVal_space, hv, dropWs_comma, hd2, hrec]
termination_by _ v kvs _ _ _ => sizeOf v + sizeOf kvs + 1
end

/-- Serializing any value as `json.dumps` does and parsing it back as
`json.loads` does recovers the value exactly. -/
theorem json_roundtrip (v : PyVal) : json_loads (json_dumps v) = some v := by
  have h := rt_val v ((jchars v).length + 1) [] (by omega) rfl
  rw [List.append_nil] at h
  show (match readVal ((jchars v).length + 1) (jchars v) with
        | some (v, r) => if dropWs r = [] then some v else none
        | none => none) = some v
  rw [h]
  rfl

/-! ## Lemma layer: the ingest record loop -/

/-- An S3 trigger event carrying the given records. -/
def mkS3Event (rs : PyList) : PyVal := .dict (.cons "Records" (.list rs) .nil)

theorem getRecords_mkS3Event (rs : PyList) : getRecords (mkS3Event rs) = .ok rs.toList := rfl

theorem PyList.toList_append : ∀ (xs ys : PyList),
    (xs.append ys).toList = xs.toList ++ ys.toList
  | .nil, _ => rfl
  | .cons x tl, ys => by
      simp [PyList.append, PyList.toList, PyList.toList_append tl ys]

/-- The record loop distributes over batch concatenation: outputs are the
concatenated per-sublist outputs, in order. -/
theorem processRecords_append (c : Collab) (xs ys : List PyVal) :
    processRecords c (xs ++ ys)
      = ((processRecords c xs).1 ++ (processRecords c ys).1,
         (processRecords c xs).2.1 ++ (processRecords c ys).2.1,
         (processRecords c xs).2.2 ++ (processRecords c ys).2.2) := by
  induction xs with
  | nil => simp [processRecords]
  | cons r rs ih =>
      rcases hpr : processRecord c r with ⟨out, sent⟩
      cases out <;> simp [processRecords, hpr, ih]

/-- Each output list of the record loop is a `filterMap` of the per-record
outcome: records are processed independently, an errored record contributes
exactly its error string, and it never suppresses a sibling's output. -/
theorem processRecords_spec (c : Collab) (rs : List PyVal) :
    (processRecords c rs).1 = rs.filterMap (fun r =>
        match (processRecord c r).1 with
        | .published p => some p
        | _ => none) ∧
    (processRecords c rs).2.1 = rs.filterMap (fun r =>
        match (processRecord c r).1 with
        | .errored m => some m
        | _ => none) := by
  induction rs with
  | nil => exact ⟨rfl, rfl⟩
  | cons r rs ih =>
      rcases hpr : processRecord c r with ⟨out, sent⟩
      cases out <;>
        simp [processRecords, hpr, List.filterMap_cons, ih.1, ih.2]

/-- A record with a truthy bucket, a nonempty decoded key and an invalid
extension is skipped: no outcome, no publish call. -/
theorem processRecord_skip (c : Collab) (r : PyVal) {b : PyVal} {k : String}
    (hb : recordBucketName r = .ok b) (hbt : pyTruthy b = true)
    (hk : recordObjectKey r = .ok k) (hk0 : k ≠ "")
    (hext : is_valid_image_file k = false) :
    processRecord c r = (.skipped, []) := by
  simp only [processRecord, hb, hk]
  rw [if_neg (by simp [hbt, hk0]), if_pos hext]

/-! ## Lemma layer: percent decoding -/

theorem pctTokens_no_pct : ∀ cs : List Char, '%' ∉ cs → pctTokens cs = cs.map Sum.inr := by
  intro cs
  induction cs with
  | nil => intro _; rfl
  | cons c t ih =>
      intro h
      have hc : c ≠ '%' := fun he => h (he ▸ List.mem_cons_self ..)
      have ht : '%' ∉ t := fun he => h (List.mem_cons_of_mem _ he)
      rw [pctTokens.eq_def]
      split
      · rename_i heq
        rw [List.cons.injEq] at heq
        exact absurd heq.1 hc
      · rename_i heq
        rw [List.cons.injEq] at heq
        obtain ⟨rfl, rfl⟩ := heq
        rw [ih ht, List.map_cons]
      · rename_i heq
        exact absurd heq (by simp)

theorem regroup_inrs : ∀ cs : List Char, regroupTokens [] (cs.map Sum.inr) = cs := by
  intro cs
  induction cs with
  | nil => rfl
  | cons c t ih =>
      have hnil : utf8DecodeRepl [] = [] := rfl
      simp [regroupTokens, ih, hnil]

theorem plusToSpace_no_pct {cs : List Char} (h : '%' ∉ cs) : '%' ∉ plusToSpace cs := by
  intro hmem
  rw [plusToSpace, List.mem_map] at hmem
  obtain ⟨c, hc, hEq⟩ := hmem
  by_cases hplus : c = '+'
  · rw [if_pos hplus] at hEq
    exact absurd hEq (by decide)
  · rw [if_neg hplus] at hEq
    exact h (hEq ▸ hc)

/-! ## Lemma layer: the consumer loop -/

/-- The events of one message-processing attempt never include a queue
delete: deletion happens only in the loop, after the attempt returns. -/
theorem psm_no_delete (c : BotCollab) (m : SqsMessage) :
    deletedHandles (process_single_message c m).2 = [] := by
  rw [process_single_message]
  dsimp only
  repeat' split
  all_goals rfl

/-- The batch loop in closed form: each message contributes its processing
events, then a delete exactly when the attempt did not raise. -/
theorem process_batch_flatMap (c : BotCollab) (ms : List SqsMessage) :
    process_batch c ms = ms.flatMap (fun m =>
        (process_single_message c m).2
          ++ (if msgFailed (process_single_message c m).1 then []
              else [.deleted m.ReceiptHandle])) := by
  induction ms with
  | nil => rfl
  | cons m ms ih =>
      rcases hm : process_single_message c m with ⟨out, evs⟩
      simp [process_batch, hm, ih]

theorem deletedHandles_append (a b : List BotEvent) :
    deletedHandles (a ++ b) = deletedHandles a ++ deletedHandles b := by
  simp [deletedHandles]

theorem deletedHandles_nil : deletedHandles [] = [] := rfl

theorem deletedHandles_deleted (rh : String) (rest : List BotEvent) :
    deletedHandles (.deleted rh :: rest) = rh :: deletedHandles rest := by
  simp [deletedHandles]

/-! ## Concrete fixtures used by claim witnesses and counterexamples -/

/-- An ingest collaborator with queue configured, failing `head_object`,
succeeding presign, succeeding publish. -/
def lamCollab : Collab :=
  ⟨some "https://sqs.example/queue", "dev", "2023-01-01T00:00:00",
    fun _ _ => none, fun _ _ => some "https://signed.example/img", fun _ => some "mid-1"⟩

/-- An ingest collaborator with `SQS_QUEUE_URL` missing. -/
def noQueueCollab : Collab :=
  ⟨none, "dev", "2023-01-01T00:00:00", fun _ _ => none, fun _ _ => none, fun _ => none⟩

/-- A consumer collaborator with an accessible channel and succeeding sends. -/
def botCollab : BotCollab := ⟨true, fun _ => true, "2024-01-01T00:00:00", "dev"⟩

/-- A queue message whose JSON body parses but lacks `image_url`. -/
def msgNoUrl : SqsMessage :=
  ⟨json_dumps (.dict (.cons "object_key" (.str "k") .nil)), "rh1"⟩

/-- The `{bucket: "imgs", key: "a%2Fb.png"}` storage record of the spec's
ingest scenario. -/
def sampleRecord : PyVal :=
  .dict (.cons "s3" (.dict
    (.cons "bucket" (.dict (.cons "name" (.str "imgs") .nil))
    (.cons "object" (.dict (.cons "key" (.str "a%2Fb.png") .nil)) .nil))) .nil)

def sampleEvent : PyVal := mkS3Event (.cons sampleRecord .nil)

/-- A storage record whose raw key contains a literal `+`. -/
def plusRecord : PyVal :=
  .dict (.cons "s3" (.dict
    (.cons "bucket" (.dict (.cons "name" (.str "imgs") .nil))
    (.cons "object" (.dict (.cons "key" (.str "a+b.png") .nil)) .nil))) .nil)

/-! ## Claims -/

/-- Claim C5: a scheduler tick that arrives while a previous polling cycle
is still in progress (`processing_active`) is a complete no-op — the state
is unchanged and no fetch is issued against the queue — so two polling
cycles never overlap; in particular two consecutive ticks from the idle
running state issue exactly one fetch. -/
theorem poll_no_overlap (s : PollState) (h : s.processing_active = true) :
    poll_step s .tick = (s, []) ∧
    poll_run ⟨true, false⟩ [.tick, .tick] = [.fetch] := by
  constructor
  · simp only [poll_step]
    rw [if_pos (Or.inr h)]
  · rfl

theorem poll_no_overlap_witness :
    poll_step ⟨true, true⟩ .tick = (⟨true, true⟩, []) ∧
    poll_run ⟨true, false⟩ [.tick, .tick] = [.fetch] :=
  poll_no_overlap ⟨true, true⟩ rfl

/-- Claim C8: the file-size formatter selects binary-unit thresholds —
below 1024 bytes it renders `"<n> B"`, below 1024² one-decimal KB, below
1024³ one-decimal MB, and GB otherwise — and on the spec's examples,
512 ↦ `"512 B"`, 2048 ↦ `"2.0 KB"`, 5242880 ↦ `"5.0 MB"`. -/
theorem format_file_size_spec :
    (∀ n : Int, n < 1024 → format_file_size n = intStr n ++ " B") ∧
    (∀ n : Int, 1024 ≤ n → n < 1024 ^ 2 →
        format_file_size n = fmtOneDec n 1024 ++ " KB") ∧
    (∀ n : Int, 1024 ^ 2 ≤ n → n < 1024 ^ 3 →
        format_file_size n = fmtOneDec n (1024 ^ 2) ++ " MB") ∧
    (∀ n : Int, 1024 ^ 3 ≤ n → format_file_size n = fmtOneDec n (1024 ^ 3) ++ " GB") ∧
    format_file_size 512 = "512 B" ∧
    format_file_size 2048 = "2.0 KB" ∧
    format_file_size 5242880 = "5.0 MB" := by
  refine ⟨?_, ?_, ?_, ?_, ?_, ?_, ?_⟩
  · intro n h
    rw [format_file_size, if_pos h]
  · intro n h1 h2
    rw [format_file_size, if_neg (by omega), if_pos h2]
  · intro n h1 h2
    rw [format_file_size, if_neg (by omega), if_neg (by omega), if_pos h2]
  · intro n h1
    rw [format_file_size, if_neg (by omega), if_neg (by omega), if_neg (by omega)]
  · rfl
  · rfl
  · rfl

theorem format_file_size_spec_witness :
    format_file_size 2048 = fmtOneDec 2048 1024 ++ " KB" :=
  format_file_size_spec.2.1 2048 (by omega) (by omega)

/-- Claim C10: key decoding uses `unquote_plus`, so on any raw key free of
percent escapes the decoded key is the raw key with every `+` turned into
a space; in particular `"a+b.png"` decodes to `"a b.png"`, also when it
arrives inside a storage record. -/
theorem unquote_plus_spec (s : String) (h : '%' ∉ s.data) :
    unquote_plus s = ⟨s.data.map (fun c => if c = '+' then ' ' else c)⟩ ∧
    unquote_plus "a+b.png" = "a b.png" ∧
    recordObjectKey plusRecord = .ok "a b.png" := by
  refine ⟨?_, rfl, rfl⟩
  rw [unquote_plus, pctTokens_no_pct _ (plusToSpace_no_pct h), regroup_inrs, plusToSpace]

theorem unquote_plus_spec_witness :
    unquote_plus "a+b.png"
      = ⟨"a+b.png".data.map (fun c => if c = '+' then ' ' else c)⟩ :=
  (unquote_plus_spec "a+b.png" (by decide)).1

/-- Claim C7: serializing a canonical notification as the Publisher does
(`json.dumps` of `_create_sqs_message`) and parsing it as the Dispatcher
does (`json.loads` plus `.get`) reproduces identical `image_url`,
`object_key` and `metadata` values, for every metadata value. -/
theorem publisher_dispatcher_roundtrip (url okey ts env : String) (meta : PyVal) :
    json_loads (json_dumps (create_sqs_message url okey ts env meta))
      = some (create_sqs_message url okey ts env meta) ∧
    ∀ kvs, json_loads (json_dumps (create_sqs_message url okey ts env meta))
        = some (.dict kvs) →
      kvs.get "image_url" .null = .str url ∧
      kvs.get "object_key" (.str "unknown") = .str okey ∧
      kvs.get "metadata" (.dict .nil) = meta := by
  refine ⟨json_roundtrip _, ?_⟩
  intro kvs h
  rw [json_roundtrip] at h
  injection h with h2
  rw [create_sqs_message] at h2
  injection h2 with h3
  subst h3
  refine ⟨?_, ?_, ?_⟩ <;> simp [PyDict.get]

theorem publisher_dispatcher_roundtrip_witness :
    PyDict.get (.cons "image_url" (.str "https://u")
        (.cons "object_key" (.str "a/b.png")
        (.cons "timestamp" (.str "2023-01-01T00:00:00")
        (.cons "environment" (.str "dev")
        (.cons "metadata" (.int 3) .nil))))) "object_key" (.str "unknown")
      = .str "a/b.png" :=
  ((publisher_dispatcher_roundtrip "https://u" "a/b.png" "2023-01-01T00:00:00" "dev"
      (.int 3)).2 _
    (publisher_dispatcher_roundtrip "https://u" "a/b.png" "2023-01-01T00:00:00" "dev"
      (.int 3)).1).2.1

/-- Claim C2: records of an ingest batch are processed with per-record
isolation.  The processed list and the error list are pointwise
`filterMap`s of the independent per-record outcome: a record that raises
contributes exactly one error string, and every record that publishes
without error appears in the processed list no matter what happens to its
siblings. -/
theorem per_record_isolation (c : Collab) (event : PyVal) (rs : List PyVal)
    (h : getRecords event = .ok rs) :
    (process_s3_event c event).1.processed_images
      = rs.filterMap (fun r =>
          match (processRecord c r).1 with
          | .published p => some p
          | _ => none) ∧
    (process_s3_event c event).1.errors
      = rs.filterMap (fun r =>
          match (processRecord c r).1 with
          | .errored m => some m
          | _ => none) := by
  rcases hps : processRecords c rs with ⟨ps, es, ss⟩
  have h1 := (processRecords_spec c rs).1
  have h2 := (processRecords_spec c rs).2
  rw [hps] at h1 h2
  simp only [process_s3_event, h, hps]
  exact ⟨h1, h2⟩

theorem per_record_isolation_witness :
    (process_s3_event lamCollab sampleEvent).1.processed_images
      = [sampleRecord].filterMap (fun r =>
          match (processRecord lamCollab r).1 with
          | .published p => some p
          | _ => none) :=
  (per_record_isolation lamCollab sampleEvent [sampleRecord] rfl).1

/-- Claim C6: a record with a bucket and key whose lowercase extension is
not among jpg/jpeg/png/gif/webp is skipped by the Normalizer — it is
neither published nor errored, and the whole ingest result (response and
publish calls alike) is as if the record were absent from the batch. -/
theorem invalid_extension_skipped (c : Collab) (r : PyVal) (pre post : PyList)
    {b : PyVal} {k : String}
    (hb : recordBucketName r = .ok b) (hbt : pyTruthy b = true)
    (hk : recordObjectKey r = .ok k) (hk0 : k ≠ "")
    (hext : is_valid_image_file k = false) :
    processRecord c r = (.skipped, []) ∧
    process_s3_event c (mkS3Event (pre.append (.cons r post)))
      = process_s3_event c (mkS3Event (pre.append post)) := by
  have hskip := processRecord_skip c r hb hbt hk hk0 hext
  refine ⟨hskip, ?_⟩
  have hcons : processRecords c (r :: post.toList) = processRecords c post.toList := by
    rcases hpp : processRecords c post.toList with ⟨ps, es, ss⟩
    simp [processRecords, hskip, hpp]
  simp only [process_s3_event, getRecords_mkS3Event, PyList.toList_append, PyList.toList]
  rw [processRecords_append c pre.toList (r :: post.toList), hcons,
    ← processRecords_append]

/-- A record whose key has a non-image extension. -/
def badExtRecord : PyVal :=
  .dict (.cons "s3" (.dict
    (.cons "bucket" (.dict (.cons "name" (.str "imgs") .nil))
    (.cons "object" (.dict (.cons "key" (.str "notes.txt") .nil)) .nil))) .nil)

theorem invalid_extension_skipped_witness :
    processRecord lamCollab badExtRecord = (.skipped, []) ∧
    process_s3_event lamCollab (mkS3Event (PyList.nil.append (.cons badExtRecord .nil)))
      = process_s3_event lamCollab (mkS3Event (PyList.nil.append .nil)) :=
  invalid_extension_skipped lamCollab badExtRecord .nil .nil rfl rfl rfl
    (by decide) (by decide)

/-- Claim C9: for the ingest batch holding exactly the record
`{bucket: "imgs", key: "a%2Fb.png"}`, with every publish call succeeding,
the key percent-decodes to `a/b.png`, passes extension validation, the
queue publish is called exactly once, and the response is status 200 with
processed count 1. -/
theorem ingest_scenario (c : Collab) (hsend : ∀ b, (c.sendMessage b).isSome = true) :
    unquote_plus "a%2Fb.png" = "a/b.png" ∧
    is_valid_image_file "a/b.png" = true ∧
    (process_s3_event c sampleEvent).1.statusCode = 200 ∧
    (process_s3_event c sampleEvent).1.processed_count = 1 ∧
    (process_s3_event c sampleEvent).2.length = 1 ∧
    (process_s3_event c sampleEvent).1.processed_images
      = [⟨.str "imgs", "a/b.png", generate_image_url c (.str "imgs") "a/b.png"⟩] := by
  have hbn : recordBucketName sampleRecord = .ok (.str "imgs") := rfl
  have hok : recordObjectKey sampleRecord = .ok "a/b.png" := rfl
  obtain ⟨mid, hmid⟩ := Option.isSome_iff_exists.mp
    (hsend (json_dumps (create_sqs_message (generate_image_url c (.str "imgs") "a/b.png")
      "a/b.png" c.nowIso c.environment (get_object_metadata c (.str "imgs") "a/b.png"))))
  have hpr : processRecord c sampleRecord
      = (.published ⟨.str "imgs", "a/b.png", generate_image_url c (.str "imgs") "a/b.png"⟩,
         [json_dumps (create_sqs_message (generate_image_url c (.str "imgs") "a/b.png")
            "a/b.png" c.nowIso c.environment (get_object_metadata c (.str "imgs") "a/b.png"))]) := by
    simp only [processRecord, hbn, hok]
    rw [if_neg (by decide), if_neg (by decide), hmid]
  have hrecs : getRecords sampleEvent = .ok [sampleRecord] := rfl
  refine ⟨rfl, rfl, ?_, ?_, ?_, ?_⟩ <;>
    simp [process_s3_event, hrecs, processRecords, hpr]

theorem ingest_scenario_witness :
    (process_s3_event lamCollab sampleEvent).1.statusCode = 200 ∧
    (process_s3_event lamCollab sampleEvent).1.processed_count = 1 ∧
    (process_s3_event lamCollab sampleEvent).2.length = 1 :=
  ⟨(ingest_scenario lamCollab (fun _ => rfl)).2.2.1,
   (ingest_scenario lamCollab (fun _ => rfl)).2.2.2.1,
   (ingest_scenario lamCollab (fun _ => rfl)).2.2.2.2.1⟩

/-- Claim C1 counterexample: a fetched message whose parsed JSON body lacks
`image_url` produces the logged warning and no delivery (no send event),
yet the consumer still issues the delete call for its receipt handle — so
"delete iff delivery succeeded" and "such a message remains in the queue"
are both false on this input. -/
theorem delete_without_delivery_cex :
    sentCount (process_batch botCollab [msgNoUrl]) = 0 ∧
    deletedHandles (process_batch botCollab [msgNoUrl]) = ["rh1"] ∧
    (process_single_message botCollab msgNoUrl).2 = [.warned] :=
  ⟨rfl, rfl, rfl⟩

/-- Claim C1 (amended): the consumer deletes a fetched message iff its
processing attempt completes without raising.  Delivery success implies
deletion and any raised error suppresses it, but a message whose parsed
body lacks `image_url` is also deleted after the logged warning (it does
not remain in the queue); each delete is issued only after that message's
own processing events, never before. -/
theorem delete_iff_no_exception (c : BotCollab) (ms : List SqsMessage) :
    process_batch c ms = ms.flatMap (fun m =>
        (process_single_message c m).2
          ++ (if msgFailed (process_single_message c m).1 then []
              else [.deleted m.ReceiptHandle])) ∧
    deletedHandles (process_batch c ms)
      = (ms.filter (fun m => !msgFailed (process_single_message c m).1)).map
          (fun m => m.ReceiptHandle) ∧
    ∀ m kvs, json_loads m.Body = some (.dict kvs) →
      pyTruthy (kvs.get "image_url" .null) = false →
      process_single_message c m = (.skippedNoUrl, [.warned]) := by
  refine ⟨process_batch_flatMap c ms, ?_, ?_⟩
  · induction ms with
    | nil => rfl
    | cons m ms ih =>
        rcases hm : process_single_message c m with ⟨out, evs⟩
        have hnd : deletedHandles evs = [] := by
          have h := psm_no_delete c m
          rw [hm] at h
          exact h
        by_cases hf : msgFailed out = true
        · simp [process_batch, hm, deletedHandles_append, hnd, deletedHandles_nil,
            deletedHandles_deleted, hf, ih, List.filter_cons]
        · rw [Bool.not_eq_true] at hf
          simp [process_batch, hm, deletedHandles_append, hnd, deletedHandles_nil,
            deletedHandles_deleted, hf, ih, List.filter_cons]
  · intro m kvs hl hu
    simp only [process_single_message, hl]
    rw [if_pos hu]

theorem delete_iff_no_exception_witness :
    deletedHandles (process_batch botCollab [msgNoUrl])
      = ([msgNoUrl].filter
          (fun m => !msgFailed (process_single_message botCollab m).1)).map
          (fun m => m.ReceiptHandle) ∧
    process_single_message botCollab msgNoUrl = (.skippedNoUrl, [.warned]) :=
  ⟨(delete_iff_no_exception botCollab [msgNoUrl]).2.1,
   (delete_iff_no_exception botCollab [msgNoUrl]).2.2 msgNoUrl
     (.cons "object_key" (.str "k") .nil) rfl rfl⟩

/-- Claim C3 counterexample: an invocation whose top-level batch cannot be
read (the event is the integer 5, so `.get` raises) returns status 207
with the single top-level error and an empty processed list — not the 500
the claim states for this case. -/
theorem malformed_batch_not_500_cex :
    (lambda_handler lamCollab (.int 5)).1
      = .ingest ⟨207, 0, 1, [], ["Error processing S3 event: AttributeError"]⟩ ∧
    (207 : Int) ≠ 500 :=
  ⟨rfl, by decide⟩

/-- Claim C3 (amended): the ingest status code is 200 exactly when the
error list is empty and 207 otherwise; an unreadable top-level batch is
caught and reported as the single top-level error with an empty processed
list under status 207; status 500 arises only when initialization fails
(missing `SQS_QUEUE_URL`), returning a bare error string. -/
theorem ingest_status_codes (c : Collab) (event : PyVal) :
    (c.queueUrl = none →
      (lambda_handler c event).1
        = .failed 500
            "Lambda execution failed: SQS_QUEUE_URL environment variable is required") ∧
    (∀ u, c.queueUrl = some u →
      ∃ resp, (lambda_handler c event).1 = .ingest resp ∧
        resp.statusCode = (if resp.errors = [] then 200 else 207) ∧
        ∀ e, getRecords event = .error e →
          resp.errors = ["Error processing S3 event: " ++ e] ∧
          resp.processed_images = [] ∧ resp.statusCode = 207) := by
  constructor
  · intro h
    simp [lambda_handler, h]
  · intro u hu
    rcases hpe : process_s3_event c event with ⟨resp, ss⟩
    refine ⟨resp, ?_, ?_, ?_⟩
    · simp [lambda_handler, hu, hpe]
    · rcases hge : getRecords event with e | rs
      · simp only [process_s3_event, hge] at hpe
        injection hpe with h1 h2
        subst h1
        simp
      · rcases hpr : processRecords c rs with ⟨ps, es, ss2⟩
        simp only [process_s3_event, hge, hpr] at hpe
        injection hpe with h1 h2
        subst h1
        cases es <;> simp
    · intro e he
      simp only [process_s3_event, he] at hpe
      injection hpe with h1 h2
      subst h1
      simp

theorem ingest_status_codes_witness :
    (lambda_handler noQueueCollab (.int 5)).1
      = .failed 500
          "Lambda execution failed: SQS_QUEUE_URL environment variable is required" :=
  (ingest_status_codes noQueueCollab (.int 5)).1 rfl

/-- Claim C4 counterexample: rendering a notification whose timestamp is
the non-empty malformed string `"garbage"` raises `ValueError` instead of
falling back to the current time — "rendering never raises for any
timestamp string" is false. -/
theorem malformed_timestamp_raises_cex :
    create_discord_embed botCollab (.str "u") (.str "k") (.str "garbage") (.dict .nil)
      = .error "ValueError" ∧
    fromisoformat_ok (replaceZ "garbage") = false :=
  ⟨rfl, rfl⟩

/-- The `size` entry of the metadata cannot itself make the renderer raise:
absent/falsy, or an integer. -/
def sizeFieldSafe (md : PyDict) : Prop :=
  pyTruthy (md.get "size" .null) = false ∨ ∃ n : Int, md.get "size" .null = .int n

/-- Claim C4 (amended): the Renderer falls back to the current time only
when the timestamp field is absent or empty; a non-empty timestamp is
parsed after the `Z` substitution, and a malformed one raises `ValueError`
(so rendering — and hence that message's processing — fails rather than
falling back). -/
theorem embed_timestamp_policy (c : BotCollab) (url : PyVal) (ks ts : String) (md : PyDict)
    (hsz : sizeFieldSafe md) :
    (ts = "" → ∃ e, create_discord_embed c url (.str ks) (.str ts) (.dict md) = .ok e
        ∧ e.timestamp = c.nowIso) ∧
    (ts ≠ "" → fromisoformat_ok (replaceZ ts) = true →
      ∃ e, create_discord_embed c url (.str ks) (.str ts) (.dict md) = .ok e
        ∧ e.timestamp = replaceZ ts) ∧
    (ts ≠ "" → fromisoformat_ok (replaceZ ts) = false →
      create_discord_embed c url (.str ks) (.str ts) (.dict md) = .error "ValueError") := by
  have hsf : ∃ flds, embedSizeField md = .ok flds := by
    rcases hsz with h | ⟨n, hn⟩
    · exact ⟨[], by simp [embedSizeField, h]⟩
    · by_cases ht : pyTruthy (md.get "size" .null) = true
      · refine ⟨[("File Size", .str (format_file_size n))], ?_⟩
        simp only [embedSizeField, hn]
        rw [if_pos (hn ▸ ht)]
      · rw [Bool.not_eq_true] at ht
        exact ⟨[], by simp [embedSizeField, ht]⟩
  obtain ⟨flds, hsfl⟩ := hsf
  refine ⟨?_, ?_, ?_⟩
  · rintro rfl
    simp only [create_discord_embed, embedTimestamp]
    rw [if_neg (by decide)]
    simp only [hsfl]
    exact ⟨_, rfl, rfl⟩
  · intro hts hiso
    simp only [create_discord_embed, embedTimestamp]
    rw [if_pos (by simpa [pyTruthy] using hts), if_pos hiso]
    simp only [hsfl]
    exact ⟨_, rfl, rfl⟩
  · intro hts hiso
    simp only [create_discord_embed, embedTimestamp]
    rw [if_pos (by simpa [pyTruthy] using hts), if_neg (by simp [hiso])]

theorem embed_timestamp_policy_witness :
    ∃ e, create_discord_embed botCollab (.str "u") (.str "k") (.str "") (.dict .nil)
        = .ok e ∧ e.timestamp = botCollab.nowIso :=
  (embed_timestamp_policy botCollab (.str "u") "k" "" .nil (Or.inl rfl)).1 rfl

end DiscordInsta
